import Mathlib

/-!
# Verification of `coindata` (`src/coindata/source.py`)

Shallow embedding of the repository's core logic:

* `get_source` — the name → source registry (`source.py:12-21`).
* `Source.range` — the shared day-by-day range generator (`source.py:35-51`).
  Python `datetime` days are modelled as integers (day numbers): the generator
  only uses `<=` and `+= timedelta(days=1)` on them.
* `ETHPrice.clean_raw_data` / `BTCPrice.clean_raw_data` and the corresponding
  `price` lookups (`source.py:65-95`, `source.py:110-126`); calendar dates are
  modelled as `(year, month, day)` triples, timestamps as a date plus a
  time-of-day number, and Python `Decimal` arithmetic as exact rationals with
  round-half-even at two decimal places (`round(Decimal, 2)`).
* `JSONDataCache.get` (`source.py:144-162`): the on-disk file is modelled by
  its `json.load` outcome (absent, malformed, or a parsed JSON value), the
  queryer by the outcome of its single possible invocation, and JSON values by
  an inductive `JValue` with Python truthiness `truthy`.  `get` additionally
  reports how many times the queryer and the validator were invoked, making
  the side-effect claims stateable.
-/

/-- JSON values as `json.load` produces them (numbers as exact rationals:
the claims' payloads are decimal literals that `str`/`repr` round-trips
exactly). -/
inductive JValue where
  | null
  | bool (b : Bool)
  | num (q : ℚ)
  | str (s : String)
  | arr (elems : List JValue)
  | obj (fields : List (String × JValue))

/-- Python truthiness of a parsed JSON value, as tested by
`if data and self.validator(data)` in `JSONDataCache.get`. -/
def truthy : JValue → Bool
  | .null => false
  | .bool b => b
  | .num q => decide (q ≠ 0)
  | .str s => decide (s ≠ "")
  | .arr elems => !elems.isEmpty
  | .obj fields => !fields.isEmpty

/-- Errors that can escape `JSONDataCache.get`: an uncaught `json.load`
exception, or an uncaught exception from the queryer. -/
inductive GetError where
  | parseError (msg : String)
  | fetchError (msg : String)
deriving DecidableEq

/-- The observable outcome of one `JSONDataCache.get()` call: the returned
value (or escaped exception), the cache-file state afterwards, and how many
times the queryer and validator were invoked. -/
structure GetOutcome where
  result : Except GetError JValue
  file : Option (Except String JValue)
  fetches : Nat
  validatorCalls : Nat

namespace JSONDataCache

/-- `source.py:158-162`: `data = self.queryer(); json.dump(data, f); return
data`.  On queryer failure the exception propagates and the file is untouched
(the write happens only after a successful fetch). -/
def fetchAndStore (queryer : Except String JValue)
    (file : Option (Except String JValue)) (validatorCalls : Nat) : GetOutcome :=
  match queryer with
  | .error msg => ⟨.error (.fetchError msg), file, 1, validatorCalls⟩
  | .ok d => ⟨.ok d, some (.ok d), 1, validatorCalls⟩

/-- `JSONDataCache.get` (`source.py:144-162`).  `file` is the on-disk cache
content, modelled by what `json.load` does with it: `none` = no file,
`some (.error msg)` = file present but malformed (`json.load` raises, and the
code has no `try`, so the exception escapes), `some (.ok data)` = file present
and parsed.  `if data and self.validator(data)` short-circuits, so the
validator runs only on truthy data. -/
def get (validator : JValue → Bool) (queryer : Except String JValue)
    (file : Option (Except String JValue)) : GetOutcome :=
  match file with
  | some (.error msg) => ⟨.error (.parseError msg), file, 0, 0⟩
  | some (.ok data) =>
    if truthy data then
      if validator data then ⟨.ok data, file, 0, 1⟩
      else fetchAndStore queryer file 1
    else fetchAndStore queryer file 0
  | none => fetchAndStore queryer file 0

end JSONDataCache

/-- The two registered source variants (`BTCPrice()` / `ETHPrice()`); the
registry resolves a name to the matching constructor. -/
inductive SourceKind where
  | btc
  | eth
deriving DecidableEq

/-- Python's `str.lower()` on the ASCII asset names: lower-case every
character. -/
def lower (s : String) : String := ⟨s.data.map Char.toLower⟩

/-- `get_source` (`source.py:12-21`): dictionary lookup on
`source_name.lower()`, raising `Exception("No market is present for " +
source_name)` when no constructor matches. -/
def get_source (source_name : String) : Except String SourceKind :=
  if lower source_name = "btc" then .ok .btc
  else if lower source_name = "eth" then .ok .eth
  else .error ("No market is present for " ++ source_name)

/-- The loop body of `Source.range` (`source.py:43-49`): advance `current`
day by day up to `date_end` inclusive, emitting `(current, price(current))`
exactly when the price is defined.  Days are integers; `+ 1` is
`+= _ONE_DAY`. -/
def rangeGo {α : Type} (price : Int → Option α) (date_end : Int)
    (current : Int) : List (Int × α) :=
  if _h : current ≤ date_end then
    match price current with
    | some p => (current, p) :: rangeGo price date_end (current + 1)
    | none => rangeGo price date_end (current + 1)
  else []
termination_by (date_end + 1 - current).toNat
decreasing_by all_goals omega

/-- `Source.range` (`source.py:35-51`): generator of `(date, price)` points
for the inclusive range, skipping dates without data. -/
def Source.range {α : Type} (price : Int → Option α)
    (date_start date_end : Int) : List (Int × α) :=
  rangeGo price date_end date_start

/-- A calendar date at year/month/day granularity: the `datetime` values the
sources use as keys (`datetime(d.year, d.month, d.day)` — no time part). -/
structure Date where
  y : Nat
  m : Nat
  d : Nat
deriving DecidableEq

/-- Chronological order on calendar dates (lexicographic on year, month,
day). -/
def Date.le (a b : Date) : Prop :=
  a.y < b.y ∨ (a.y = b.y ∧ (a.m < b.m ∨ (a.m = b.m ∧ a.d ≤ b.d)))

instance (a b : Date) : Decidable (Date.le a b) := by
  unfold Date.le; infer_instance

theorem Date.le_refl (a : Date) : Date.le a a := by
  simp [Date.le]

theorem Date.le_trans {a b c : Date} (hab : Date.le a b) (hbc : Date.le b c) :
    Date.le a c := by
  rcases a with ⟨ay, am, ad⟩; rcases b with ⟨by_, bm, bd⟩; rcases c with ⟨cy, cm, cd⟩
  simp only [Date.le] at *
  omega

theorem Date.le_antisymm {a b : Date} (hab : Date.le a b) (hba : Date.le b a) :
    a = b := by
  rcases a with ⟨ay, am, ad⟩; rcases b with ⟨by_, bm, bd⟩
  simp only [Date.le, Date.mk.injEq] at *
  omega

/-- A provider timestamp such as `"2024-01-01T12:00:00Z"`, modelled by its
parsed pieces: the calendar date (what `get_date` extracts by splitting on
`"T"`) and the time of day (seconds, only relevant to the ordering). -/
structure Timestamp where
  date : Date
  tod : Nat
deriving DecidableEq

/-- Chronological order on timestamps: by date, then by time of day. -/
def Timestamp.le (a b : Timestamp) : Prop :=
  (Date.le a.date b.date ∧ a.date ≠ b.date) ∨ (a.date = b.date ∧ a.tod ≤ b.tod)

instance (a b : Timestamp) : Decidable (Timestamp.le a b) := by
  unfold Timestamp.le; infer_instance

theorem Timestamp.le_date {a b : Timestamp} (h : Timestamp.le a b) :
    Date.le a.date b.date := by
  rcases h with ⟨h, _⟩ | ⟨h, _⟩
  · exact h
  · rw [h]; exact Date.le_refl _

/-- One entry of etherchain's `data` array: a `{time: ..., usd: ...}` sample.
The JSON `usd` number is modelled as the exact rational that
`Decimal(str(d['usd']))` produces. -/
structure EthDatum where
  time : Timestamp
  usd : ℚ

/-- `get_date` inside `ETHPrice.__clean_raw_data` (`source.py:70-71`): keep
only the calendar-date part of the timestamp. -/
def get_date (ts : Timestamp) : Date := ts.date

/-- Round-half-even of a rational to an integer: the rounding Python's
`round` applies to `Decimal` values (default `ROUND_HALF_EVEN` context). -/
def roundHalfEven (q : ℚ) : ℤ :=
  if q - ⌊q⌋ < 1 / 2 then ⌊q⌋
  else if q - ⌊q⌋ > 1 / 2 then ⌊q⌋ + 1
  else if ⌊q⌋ % 2 = 0 then ⌊q⌋ else ⌊q⌋ + 1

/-- `round(x, 2)` on a `Decimal`, modelled over exact rationals: half-even
rounding at the second decimal place. -/
def round2 (q : ℚ) : ℚ := (roundHalfEven (q * 100) : ℚ) / 100

namespace ETHPrice

/-- `ETHPrice.__clean_raw_data` (`source.py:65-84`): walk the time-ordered
sample list, take each contiguous same-day run (`itertools.takewhile`),
store the day's mean price rounded to two decimals, and move past the run.
The produced `{datetime: Decimal}` dict is modelled as a `Date → Option ℚ`
function in which later insertions overwrite earlier ones (Python dict
assignment); `Decimal` sums and quotients are modelled as exact rationals. -/
def clean_raw_data : List EthDatum → Date → Option ℚ
  | [] => fun _ => none
  | x :: xs =>
    let day := get_date x.time
    let for_day := x :: xs.takeWhile (fun datum => decide (get_date datum.time = day))
    let avg := round2 (((for_day.map EthDatum.usd).sum) / (for_day.length : ℚ))
    let rest := clean_raw_data (xs.dropWhile (fun datum => decide (get_date datum.time = day)))
    fun dt =>
      match rest dt with
      | some p => some p
      | none => if dt = day then some avg else none
termination_by data => data.length
decreasing_by
  simp only [List.length_cons]
  exact Nat.lt_succ_of_le (List.Sublist.length_le (List.dropWhile_sublist _))

/-- `ETHPrice.price` (`source.py:94-95`): `self._data.get(...)` on the
cleaned mapping, where `_data` is built from the raw provider samples at
construction (`source.py:57`).  `dict.get` returns `None` on a missing key. -/
def price (raw : List EthDatum) (dt : Date) : Option ℚ :=
  clean_raw_data raw dt

end ETHPrice

namespace BTCPrice

/-- `BTCPrice.__clean_raw_data` (`source.py:110-115`): the `data['bpi']`
JSON object, modelled as its (date, price) entry list, turned into a dict
via a comprehension — later entries overwrite earlier ones.  Each price is
`round(Decimal(str(price)), 2)`. -/
def clean_raw_data : List (Date × ℚ) → Date → Option ℚ
  | [] => fun _ => none
  | (ds, p) :: rest => fun dt =>
    match clean_raw_data rest dt with
    | some q => some q
    | none => if dt = ds then some (round2 p) else none

/-- `BTCPrice.price` (`source.py:125-126`): `self._data.get(...)` on the
cleaned mapping built at construction (`source.py:101`). -/
def price (raw : List (Date × ℚ)) (dt : Date) : Option ℚ :=
  clean_raw_data raw dt

end BTCPrice

/-! ## Missing dates and BTC normalization (claims C7, C8) -/

theorem btc_clean_absent (bpi : List (Date × ℚ)) (dt : Date)
    (h : ∀ e ∈ bpi, e.1 ≠ dt) : BTCPrice.clean_raw_data bpi dt = none := by
  induction bpi with
  | nil => rfl
  | cons e rest ih =>
    obtain ⟨ds, p⟩ := e
    simp only [BTCPrice.clean_raw_data]
    rw [ih fun z hz => h z (List.mem_cons_of_mem _ hz)]
    exact if_neg fun heq => h (ds, p) (List.mem_cons_self _ _) heq.symm

theorem btc_clean_mem (bpi : List (Date × ℚ))
    (hkeys : (bpi.map Prod.fst).Nodup) (dt : Date) (p : ℚ)
    (hmem : (dt, p) ∈ bpi) :
    BTCPrice.clean_raw_data bpi dt = some (round2 p) := by
  induction bpi with
  | nil => cases hmem
  | cons e rest ih =>
    obtain ⟨ds, q⟩ := e
    simp only [List.map_cons, List.nodup_cons] at hkeys
    simp only [BTCPrice.clean_raw_data]
    rcases List.mem_cons.mp hmem with heq | hmem'
    · injection heq with h1 h2
      subst h1
      subst h2
      rw [btc_clean_absent rest dt fun z hz hz1 =>
        hkeys.1 (by rw [← hz1]; exact List.mem_map_of_mem Prod.fst hz)]
      simp
    · rw [ih hkeys.2 hmem']

/-- C7 (general part): BTC normalization sends each `(date, price)` entry of
the `bpi` object (keys are unique in a JSON object) to that date's price
rounded to two decimals, and dates not among the keys to absent. -/
theorem btc_price_spec (bpi : List (Date × ℚ))
    (hkeys : (bpi.map Prod.fst).Nodup) (dt : Date) :
    (∀ p : ℚ, (dt, p) ∈ bpi → BTCPrice.price bpi dt = some (round2 p)) ∧
    (dt ∉ bpi.map Prod.fst → BTCPrice.price bpi dt = none) :=
  ⟨fun p hmem => btc_clean_mem bpi hkeys dt p hmem,
   fun habs => btc_clean_absent bpi dt fun e he (heq : e.1 = dt) =>
     habs (heq ▸ List.mem_map_of_mem Prod.fst he)⟩

/-- Witness for C7: the payload `{"bpi": {"2024-01-01": 42000.555,
"2024-01-02": 43000.0}}` gives `price(2024-01-01) = 42000.56` (half-even at
the third decimal), `price(2024-01-02) = 43000.00`, and `price(2024-01-03)`
absent. -/
theorem btc_price_spec_witness :
    BTCPrice.price [(⟨2024, 1, 1⟩, 42000555 / 1000), (⟨2024, 1, 2⟩, 43000)]
        ⟨2024, 1, 1⟩ = some (4200056 / 100) ∧
    BTCPrice.price [(⟨2024, 1, 1⟩, 42000555 / 1000), (⟨2024, 1, 2⟩, 43000)]
        ⟨2024, 1, 2⟩ = some 43000 ∧
    BTCPrice.price [(⟨2024, 1, 1⟩, 42000555 / 1000), (⟨2024, 1, 2⟩, 43000)]
        ⟨2024, 1, 3⟩ = none := by
  refine ⟨?_, ?_, ?_⟩
  · rw [(btc_price_spec [(⟨2024, 1, 1⟩, 42000555 / 1000), (⟨2024, 1, 2⟩, 43000)]
        (by decide) ⟨2024, 1, 1⟩).1 (42000555 / 1000) (List.mem_cons_self _ _)]
    norm_num [round2, roundHalfEven]
  · rw [(btc_price_spec [(⟨2024, 1, 1⟩, 42000555 / 1000), (⟨2024, 1, 2⟩, 43000)]
        (by decide) ⟨2024, 1, 2⟩).1 43000
        (List.mem_cons_of_mem _ (List.mem_cons_self _ _))]
    norm_num [round2, roundHalfEven]
  · exact (btc_price_spec [(⟨2024, 1, 1⟩, 42000555 / 1000), (⟨2024, 1, 2⟩, 43000)]
        (by decide) ⟨2024, 1, 3⟩).2 (by decide)

theorem eth_clean_absent (n : Nat) :
    ∀ raw : List EthDatum, raw.length ≤ n → ∀ dt : Date,
      (∀ x ∈ raw, get_date x.time ≠ dt) →
      ETHPrice.clean_raw_data raw dt = none := by
  induction n with
  | zero =>
    intro raw hlen dt _
    match raw with
    | [] => simp [ETHPrice.clean_raw_data]
  | succ n ih =>
    intro raw hlen dt h
    match raw with
    | [] => simp [ETHPrice.clean_raw_data]
    | x :: xs =>
      simp only [ETHPrice.clean_raw_data]
      rw [ih (xs.dropWhile fun datum => decide (get_date datum.time = get_date x.time))
        (le_trans (List.Sublist.length_le (List.dropWhile_sublist _))
          (by simpa using Nat.le_of_succ_le_succ hlen))
        dt
        (fun z hz => h z (List.mem_cons_of_mem _
          (List.Sublist.mem hz (List.dropWhile_sublist _))))]
      exact if_neg fun heq => h x (List.mem_cons_self _ _) heq.symm

/-- C8: for any raw provider data and any date with no entry in it, both
sources' `price` returns the explicit absent value `none` — `dict.get` on a
missing key, an ordinary outcome, not an exception (both `price` embeddings
are total functions into `Option`). -/
theorem price_absent_for_missing_date (ethRaw : List EthDatum)
    (btcRaw : List (Date × ℚ)) (dt : Date) :
    ((∀ x ∈ ethRaw, get_date x.time ≠ dt) → ETHPrice.price ethRaw dt = none) ∧
    ((∀ e ∈ btcRaw, e.1 ≠ dt) → BTCPrice.price btcRaw dt = none) :=
  ⟨fun h => eth_clean_absent ethRaw.length ethRaw le_rfl dt h,
   fun h => btc_clean_absent btcRaw dt h⟩

/-- Witness for C8: a date with no data in either source's raw payload maps
to `none` for both. -/
theorem price_absent_for_missing_date_witness :
    ETHPrice.price [⟨⟨⟨2024, 1, 1⟩, 0⟩, 100⟩] ⟨2024, 1, 3⟩ = none ∧
    BTCPrice.price [(⟨2024, 1, 1⟩, 100)] ⟨2024, 1, 3⟩ = none :=
  ⟨(price_absent_for_missing_date [⟨⟨⟨2024, 1, 1⟩, 0⟩, 100⟩]
      [(⟨2024, 1, 1⟩, 100)] ⟨2024, 1, 3⟩).1 (by decide),
   (price_absent_for_missing_date [⟨⟨⟨2024, 1, 1⟩, 0⟩, 100⟩]
      [(⟨2024, 1, 1⟩, 100)] ⟨2024, 1, 3⟩).2 (by decide)⟩

/-! ## ETH normalization (claim C6) -/

/-- In a time-sorted sample list whose dates all lie at or after `day0`,
everything left after dropping the leading `day0` run has a date other than
`day0`: the same-day group captured by `itertools.takewhile` is complete. -/
theorem eth_dropWhile_no_day (day0 : Date) :
    ∀ xs : List EthDatum,
      xs.Pairwise (fun a b => Timestamp.le a.time b.time) →
      (∀ z ∈ xs, Date.le day0 (get_date z.time)) →
      ∀ z ∈ xs.dropWhile fun datum => decide (get_date datum.time = day0),
        get_date z.time ≠ day0 := by
  intro xs
  induction xs with
  | nil => intro _ _ z hz; cases hz
  | cons x xs ih =>
    intro hpw hge z hz
    rw [List.pairwise_cons] at hpw
    by_cases hday : get_date x.time = day0
    · rw [List.dropWhile_cons_of_pos (by simpa using hday)] at hz
      exact ih hpw.2 (fun w hw => hge w (List.mem_cons_of_mem _ hw)) z hz
    · rw [List.dropWhile_cons_of_neg (by simpa using hday)] at hz
      rcases List.mem_cons.mp hz with rfl | hz'
      · exact hday
      · intro hzeq
        have h1 : Date.le day0 (get_date x.time) :=
          hge x (List.mem_cons_self _ _)
        have h2 : Date.le (get_date x.time) (get_date z.time) :=
          Timestamp.le_date (hpw.1 z hz')
        rw [hzeq] at h2
        exact hday (Date.le_antisymm h2 h1)

theorem eth_clean_spec_aux (n : Nat) :
    ∀ raw : List EthDatum, raw.length ≤ n →
      raw.Pairwise (fun a b => Timestamp.le a.time b.time) →
      ∀ dt : Date,
        ETHPrice.clean_raw_data raw dt =
          if (raw.filter fun z => decide (get_date z.time = dt)).isEmpty then none
          else some (round2
            (((raw.filter fun z => decide (get_date z.time = dt)).map
                EthDatum.usd).sum /
              ((raw.filter fun z => decide (get_date z.time = dt)).length : ℚ))) := by
  induction n with
  | zero =>
    intro raw hlen _ dt
    match raw with
    | [] => simp [ETHPrice.clean_raw_data]
  | succ n ih =>
    intro raw hlen hpw dt
    match raw with
    | [] => simp [ETHPrice.clean_raw_data]
    | x :: xs =>
      rw [List.pairwise_cons] at hpw
      have hge : ∀ z ∈ xs, Date.le (get_date x.time) (get_date z.time) :=
        fun z hz => Timestamp.le_date (hpw.1 z hz)
      have hrest_pw :
          (xs.dropWhile fun datum =>
              decide (get_date datum.time = get_date x.time)).Pairwise
            (fun a b => Timestamp.le a.time b.time) :=
        List.Pairwise.sublist (List.dropWhile_sublist _) hpw.2
      have hrest_len :
          (xs.dropWhile fun datum =>
              decide (get_date datum.time = get_date x.time)).length ≤ n :=
        le_trans (List.Sublist.length_le (List.dropWhile_sublist _))
          (by simpa using Nat.le_of_succ_le_succ hlen)
      have hrest_ne :
          ∀ z ∈ xs.dropWhile fun datum =>
              decide (get_date datum.time = get_date x.time),
            get_date z.time ≠ get_date x.time :=
        eth_dropWhile_no_day (get_date x.time) xs hpw.2 hge
      have htake :
          ∀ z ∈ xs.takeWhile fun datum =>
              decide (get_date datum.time = get_date x.time),
            get_date z.time = get_date x.time :=
        fun z hz => by simpa using List.mem_takeWhile_imp hz
      have hsplit :
          (xs.takeWhile fun datum =>
              decide (get_date datum.time = get_date x.time)) ++
            (xs.dropWhile fun datum =>
              decide (get_date datum.time = get_date x.time)) = xs :=
        List.takeWhile_append_dropWhile _ _
      have hIH := ih (xs.dropWhile fun datum =>
          decide (get_date datum.time = get_date x.time)) hrest_len hrest_pw
      simp only [ETHPrice.clean_raw_data]
      by_cases hdt : dt = get_date x.time
      · subst hdt
        have hfrest :
            ((xs.dropWhile fun datum =>
                decide (get_date datum.time = get_date x.time)).filter
              fun z => decide (get_date z.time = get_date x.time)) = [] :=
          List.filter_eq_nil_iff.mpr fun a ha => by
            simpa using hrest_ne a ha
        have hftake :
            ((xs.takeWhile fun datum =>
                decide (get_date datum.time = get_date x.time)).filter
              fun z => decide (get_date z.time = get_date x.time)) =
              xs.takeWhile fun datum =>
                decide (get_date datum.time = get_date x.time) :=
          List.filter_eq_self.mpr fun a ha => by
            simpa using htake a ha
        have hfx :
            ((x :: xs).filter fun z =>
                decide (get_date z.time = get_date x.time)) =
              x :: xs.takeWhile fun datum =>
                decide (get_date datum.time = get_date x.time) := by
          rw [List.filter_cons_of_pos (by simp)]
          conv_lhs => rw [← hsplit]
          rw [List.filter_append, hftake, hfrest, List.append_nil]
        rw [hIH (get_date x.time), hfrest, hfx]
        simp
      · have hfx :
            ((x :: xs).filter fun z => decide (get_date z.time = dt)) =
              (xs.dropWhile fun datum =>
                decide (get_date datum.time = get_date x.time)).filter
                fun z => decide (get_date z.time = dt) := by
          rw [List.filter_cons_of_neg
            (by simp only [decide_eq_true_eq]; exact fun h => hdt h.symm)]
          conv_lhs => rw [← hsplit]
          rw [List.filter_append,
            List.filter_eq_nil_iff.mpr (fun a ha => by
              simp only [decide_eq_true_eq]
              rw [htake a ha]
              exact fun h => hdt h.symm),
            List.nil_append]
        rw [hIH dt, hfx]
        by_cases hc :
            ((xs.dropWhile fun datum =>
                decide (get_date datum.time = get_date x.time)).filter
              fun z => decide (get_date z.time = dt)).isEmpty
        · simp [hc, hdt]
        · simp [hc, hdt]

/-- C6: for every time-ordered ETH raw sample list, the normalization maps a
calendar day with samples to the arithmetic mean of that day's samples
rounded to two decimal places (the day's samples form one contiguous run, so
the grouping pass collects exactly all of them), and a day without samples
to absent. -/
theorem eth_price_spec (raw : List EthDatum)
    (hsorted : raw.Pairwise fun a b => Timestamp.le a.time b.time)
    (dt : Date) :
    ETHPrice.price raw dt =
      if (raw.filter fun z => decide (get_date z.time = dt)).isEmpty then none
      else some (round2
        (((raw.filter fun z => decide (get_date z.time = dt)).map
            EthDatum.usd).sum /
          ((raw.filter fun z => decide (get_date z.time = dt)).length : ℚ))) :=
  eth_clean_spec_aux raw.length raw le_rfl hsorted dt

/-- Witness for C6 — the spec's scenario: samples `(2024-01-01T00:00:00,
100)`, `(2024-01-01T12:00:00, 102)`, `(2024-01-02T00:00:00, 200)` give
`price(2024-01-01) = 101.00` and `price(2024-01-02) = 200.00`. -/
theorem eth_price_spec_witness :
    ([(⟨⟨⟨2024, 1, 1⟩, 0⟩, 100⟩ : EthDatum), ⟨⟨⟨2024, 1, 1⟩, 43200⟩, 102⟩,
        ⟨⟨⟨2024, 1, 2⟩, 0⟩, 200⟩].Pairwise
      fun a b => Timestamp.le a.time b.time) ∧
    ETHPrice.price [⟨⟨⟨2024, 1, 1⟩, 0⟩, 100⟩, ⟨⟨⟨2024, 1, 1⟩, 43200⟩, 102⟩,
        ⟨⟨⟨2024, 1, 2⟩, 0⟩, 200⟩] ⟨2024, 1, 1⟩ = some 101 ∧
    ETHPrice.price [⟨⟨⟨2024, 1, 1⟩, 0⟩, 100⟩, ⟨⟨⟨2024, 1, 1⟩, 43200⟩, 102⟩,
        ⟨⟨⟨2024, 1, 2⟩, 0⟩, 200⟩] ⟨2024, 1, 2⟩ = some 200 := by
  refine ⟨by decide, ?_, ?_⟩
  · rw [eth_price_spec _ (by decide) ⟨2024, 1, 1⟩]
    norm_num [List.filter, get_date, round2, roundHalfEven]
  · rw [eth_price_spec _ (by decide) ⟨2024, 1, 2⟩]
    norm_num [List.filter, get_date, round2, roundHalfEven]

/-! ## Range iteration (claim C1) -/

theorem rangeGo_mem {α : Type} (price : Int → Option α) (date_end : Int) :
    ∀ (c d : Int) (p : α),
      (d, p) ∈ rangeGo price date_end c ↔
        c ≤ d ∧ d ≤ date_end ∧ price d = some p := by
  intro c d p
  generalize hn : (date_end + 1 - c).toNat = n
  induction n generalizing c with
  | zero =>
    rw [rangeGo, dif_neg (by omega)]
    simp only [List.not_mem_nil, false_iff]
    rintro ⟨h1, h2, -⟩
    omega
  | succ n ih =>
    rw [rangeGo, dif_pos (by omega)]
    cases hp : price c with
    | some q =>
      rw [List.mem_cons, ih (c + 1) (by omega)]
      constructor
      · rintro (heq | ⟨h1, h2, h3⟩)
        · obtain ⟨rfl, rfl⟩ := Prod.mk.injEq .. ▸ heq
          exact ⟨le_refl _, by omega, hp⟩
        · exact ⟨by omega, h2, h3⟩
      · rintro ⟨h1, h2, h3⟩
        rcases eq_or_lt_of_le h1 with rfl | hlt
        · left
          rw [hp] at h3
          rw [Option.some_inj] at h3
          rw [h3]
        · right
          exact ⟨by omega, h2, h3⟩
    | none =>
      rw [ih (c + 1) (by omega)]
      constructor
      · rintro ⟨h1, h2, h3⟩
        exact ⟨by omega, h2, h3⟩
      · rintro ⟨h1, h2, h3⟩
        rcases eq_or_lt_of_le h1 with rfl | hlt
        · rw [hp] at h3
          exact absurd h3 (by simp)
        · exact ⟨by omega, h2, h3⟩

theorem rangeGo_pairwise {α : Type} (price : Int → Option α) (date_end : Int) :
    ∀ c : Int, (rangeGo price date_end c).Pairwise (fun a b => a.1 < b.1) := by
  intro c
  generalize hn : (date_end + 1 - c).toNat = n
  induction n generalizing c with
  | zero =>
    rw [rangeGo, dif_neg (by omega)]
    exact List.Pairwise.nil
  | succ n ih =>
    rw [rangeGo, dif_pos (by omega)]
    cases hp : price c with
    | some q =>
      refine List.Pairwise.cons ?_ (ih (c + 1) (by omega))
      intro y hy
      have := ((rangeGo_mem price date_end (c + 1) y.1 y.2).mp (by simpa using hy)).1
      show c < y.1
      omega
    | none => exact ih (c + 1) (by omega)

/-- C1: for every price function and date pair, `Source.range` emits pairs
with strictly increasing dates; a pair `(d, p)` is emitted exactly when
`date_start ≤ d ≤ date_end` and `price d = some p` (so every emitted price
is `price` at that date, and the emitted-date set is exactly the in-range
dates with data); when `date_start > date_end` the output is empty. -/
theorem range_spec {α : Type} (price : Int → Option α)
    (date_start date_end : Int) :
    (Source.range price date_start date_end).Pairwise (fun a b => a.1 < b.1) ∧
    (∀ (d : Int) (p : α), (d, p) ∈ Source.range price date_start date_end ↔
      date_start ≤ d ∧ d ≤ date_end ∧ price d = some p) ∧
    (date_end < date_start → Source.range price date_start date_end = []) :=
  ⟨rangeGo_pairwise price date_end date_start,
   fun d p => rangeGo_mem price date_end date_start d p,
   fun h => by rw [Source.range, rangeGo, dif_neg (by omega)]⟩

/-- Witness for C1: with prices defined only on days `1` and `3`, the range
`[5, 3]` is empty and the range `[0, 3]` contains day `1`. -/
theorem range_spec_witness :
    Source.range (fun d => if d = 1 ∨ d = 3 then some d else (none : Option Int))
        5 3 = [] ∧
    (1, 1) ∈ Source.range
        (fun d => if d = 1 ∨ d = 3 then some d else (none : Option Int)) 0 3 :=
  ⟨(range_spec _ 5 3).2.2 (by decide),
   ((range_spec _ 0 3).2.1 1 1).mpr (by decide)⟩

/-! ## Registry (claim C9) -/

/-- C9: `get_source` resolves asset names case-insensitively — any spelling
that lowercases to `"btc"` (resp. `"eth"`) yields the matching variant — and
any other name fails with an error message carrying the requested name. -/
theorem get_source_case_insensitive_and_unknown (source_name : String) :
    (lower source_name = "btc" → get_source source_name = .ok .btc) ∧
    (lower source_name = "eth" → get_source source_name = .ok .eth) ∧
    (lower source_name ≠ "btc" → lower source_name ≠ "eth" →
      get_source source_name =
        .error ("No market is present for " ++ source_name)) := by
  refine ⟨fun h => ?_, fun h => ?_, fun h1 h2 => ?_⟩ <;>
    simp [get_source, *]

/-- Witness for C9: `"BTC"` and `"Eth"` resolve to their variants, and
`"xrp"` fails with a message carrying `"xrp"`. -/
theorem get_source_case_insensitive_and_unknown_witness :
    get_source "BTC" = .ok .btc ∧ get_source "Eth" = .ok .eth ∧
    get_source "xrp" = .error "No market is present for xrp" :=
  ⟨(get_source_case_insensitive_and_unknown "BTC").1 (by decide),
   (get_source_case_insensitive_and_unknown "Eth").2.1 (by decide),
   (get_source_case_insensitive_and_unknown "xrp").2.2 (by decide) (by decide)⟩

/-! ## Cache behaviour (claims C2, C3, C4, C5, C10) -/

/-- Counterexample to C2 as stated: with an existing but malformed cache
file, `get()` surfaces the `json.load` exception (`data = json.load(f)` at
`source.py:152` is not wrapped in any `try`) and performs zero fetches —
it does not treat the parse failure like an absent cache. -/
theorem cache_parse_error_surfaced_counterexample :
    (JSONDataCache.get (fun _ => true) (Except.ok JValue.null)
        (some (Except.error "Expecting value"))).result
      = Except.error (GetError.parseError "Expecting value") ∧
    (JSONDataCache.get (fun _ => true) (Except.ok JValue.null)
        (some (Except.error "Expecting value"))).fetches = 0 :=
  ⟨rfl, rfl⟩

/-- C2 amended: if the cache file exists but fails to parse, `get()`
propagates the parse error to the caller; no fetch happens, the validator is
never consulted, and the file is left unchanged. -/
theorem cache_parse_error_propagates (validator : JValue → Bool)
    (queryer : Except String JValue) (msg : String) :
    JSONDataCache.get validator queryer (some (Except.error msg)) =
      ⟨Except.error (GetError.parseError msg), some (Except.error msg), 0, 0⟩ :=
  rfl

/-- Counterexample to C3 as stated: the file exists and parses to the
payload `{}` and the configured validator returns `true` on it, yet `get()`
performs a fetch (the claim requires zero fetches).  `if data and
self.validator(data)` treats the falsy `{}` as invalid. -/
theorem cache_hit_returns_cached_counterexample :
    (fun _ => true : JValue → Bool) (JValue.obj []) = true ∧
    (JSONDataCache.get (fun _ => true) (Except.ok (JValue.num 7))
        (some (Except.ok (JValue.obj [])))).fetches = 1 :=
  ⟨rfl, rfl⟩

/-- C3 amended: if the cache file exists, parses to a *truthy* payload, and
the validator accepts it, `get()` returns the cached payload unchanged,
fetches zero times, and leaves the file as it was (one validator call). -/
theorem cache_hit_returns_cached (validator : JValue → Bool)
    (queryer : Except String JValue) (data : JValue)
    (htruthy : truthy data = true) (hvalid : validator data = true) :
    JSONDataCache.get validator queryer (some (Except.ok data)) =
      ⟨Except.ok data, some (Except.ok data), 0, 1⟩ := by
  simp [JSONDataCache.get, htruthy, hvalid]

/-- Witness for C3 (amended) at the payload `1` and the constantly-true
validator. -/
theorem cache_hit_returns_cached_witness :
    truthy (JValue.num 1) = true ∧
    JSONDataCache.get (fun _ => true) (Except.ok JValue.null)
        (some (Except.ok (JValue.num 1))) =
      ⟨Except.ok (JValue.num 1), some (Except.ok (JValue.num 1)), 0, 1⟩ :=
  ⟨rfl, cache_hit_returns_cached _ _ _ rfl rfl⟩

/-- C4: whenever `get()` does invoke the queryer (`fetches ≥ 1`) and the
queryer raises, the error propagates uncaught, exactly one fetch was
attempted (no retry), and the cache file is unchanged — the `json.dump`
write at `source.py:160-161` happens only after a successful fetch. -/
theorem cache_fetch_failure_propagates (validator : JValue → Bool)
    (msg : String) (file : Option (Except String JValue))
    (hfetch : 1 ≤ (JSONDataCache.get validator (Except.error msg) file).fetches) :
    (JSONDataCache.get validator (Except.error msg) file).result
        = Except.error (GetError.fetchError msg) ∧
    (JSONDataCache.get validator (Except.error msg) file).file = file ∧
    (JSONDataCache.get validator (Except.error msg) file).fetches = 1 := by
  match file with
  | none => exact ⟨rfl, rfl, rfl⟩
  | some (Except.error m) => simp [JSONDataCache.get] at hfetch
  | some (Except.ok data) =>
    by_cases ht : truthy data
    · by_cases hv : validator data
      · simp [JSONDataCache.get, ht, hv] at hfetch
      · simp [JSONDataCache.get, JSONDataCache.fetchAndStore, ht, hv]
    · simp [JSONDataCache.get, JSONDataCache.fetchAndStore,
        Bool.not_eq_true .. ▸ ht]

/-- Witness for C4: absent cache file, failing queryer. -/
theorem cache_fetch_failure_propagates_witness :
    (JSONDataCache.get (fun _ => true) (Except.error "boom") none).result
        = Except.error (GetError.fetchError "boom") ∧
    (JSONDataCache.get (fun _ => true) (Except.error "boom") none).file = none ∧
    (JSONDataCache.get (fun _ => true) (Except.error "boom") none).fetches = 1 :=
  cache_fetch_failure_propagates (fun _ => true) "boom" none (by decide)

/-- Counterexample to C5 as stated: starting with no cache file and a
queryer producing the falsy payload `null`, the first `get()` performs one
fetch and writes the payload, the validator accepts the just-written
payload, yet the second `get()` fetches again (the claim requires zero
fetches on the second call). -/
theorem cache_idempotence_counterexample :
    (JSONDataCache.get (fun _ => true) (Except.ok JValue.null) none).fetches = 1 ∧
    (JSONDataCache.get (fun _ => true) (Except.ok JValue.null) none).file
        = some (Except.ok JValue.null) ∧
    (fun _ => true : JValue → Bool) JValue.null = true ∧
    (JSONDataCache.get (fun _ => true) (Except.ok JValue.null)
        (JSONDataCache.get (fun _ => true) (Except.ok JValue.null) none).file).fetches
      = 1 :=
  ⟨rfl, rfl, rfl, rfl⟩

/-- C5 amended: if the first `get()` call fetches (cache missing or
invalid), it fetches exactly once and writes the fetched payload to the
file; provided the fetched payload is *truthy* and the validator accepts
it, an immediately following `get()` fetches zero times and returns the
same payload after the write/read round trip, leaving the file unchanged. -/
theorem cache_idempotence (validator : JValue → Bool) (d : JValue)
    (file : Option (Except String JValue))
    (hfetch : 1 ≤ (JSONDataCache.get validator (Except.ok d) file).fetches)
    (htruthy : truthy d = true) (hvalid : validator d = true) :
    (JSONDataCache.get validator (Except.ok d) file).fetches = 1 ∧
    (JSONDataCache.get validator (Except.ok d) file).result = Except.ok d ∧
    (JSONDataCache.get validator (Except.ok d) file).file = some (Except.ok d) ∧
    (JSONDataCache.get validator (Except.ok d)
        ((JSONDataCache.get validator (Except.ok d) file).file)).fetches = 0 ∧
    (JSONDataCache.get validator (Except.ok d)
        ((JSONDataCache.get validator (Except.ok d) file).file)).result
      = Except.ok d ∧
    (JSONDataCache.get validator (Except.ok d)
        ((JSONDataCache.get validator (Except.ok d) file).file)).file
      = some (Except.ok d) := by
  have hfirst : JSONDataCache.get validator (Except.ok d) file =
      ⟨Except.ok d, some (Except.ok d), 1, 0⟩ ∨
      JSONDataCache.get validator (Except.ok d) file =
      ⟨Except.ok d, some (Except.ok d), 1, 1⟩ := by
    match file with
    | none => exact Or.inl rfl
    | some (Except.error m) => simp [JSONDataCache.get] at hfetch
    | some (Except.ok data) =>
      by_cases ht : truthy data
      · by_cases hv : validator data
        · simp [JSONDataCache.get, ht, hv] at hfetch
        · right; simp [JSONDataCache.get, JSONDataCache.fetchAndStore, ht, hv]
      · left
        simp [JSONDataCache.get, JSONDataCache.fetchAndStore,
          Bool.not_eq_true .. ▸ ht]
  rcases hfirst with h | h <;>
    rw [h] <;>
    exact ⟨rfl, rfl, rfl, by simp [JSONDataCache.get, htruthy, hvalid],
      by simp [JSONDataCache.get, htruthy, hvalid],
      by simp [JSONDataCache.get, htruthy, hvalid]⟩

/-- Witness for C5 (amended): no cache file, queryer returning `1`,
constantly-true validator. -/
theorem cache_idempotence_witness :
    truthy (JValue.num 1) = true ∧
    ((JSONDataCache.get (fun _ => true) (Except.ok (JValue.num 1)) none).fetches = 1 ∧
     (JSONDataCache.get (fun _ => true) (Except.ok (JValue.num 1)) none).result
        = Except.ok (JValue.num 1) ∧
     (JSONDataCache.get (fun _ => true) (Except.ok (JValue.num 1)) none).file
        = some (Except.ok (JValue.num 1)) ∧
     (JSONDataCache.get (fun _ => true) (Except.ok (JValue.num 1))
        ((JSONDataCache.get (fun _ => true) (Except.ok (JValue.num 1)) none).file)).fetches
        = 0 ∧
     (JSONDataCache.get (fun _ => true) (Except.ok (JValue.num 1))
        ((JSONDataCache.get (fun _ => true) (Except.ok (JValue.num 1)) none).file)).result
        = Except.ok (JValue.num 1) ∧
     (JSONDataCache.get (fun _ => true) (Except.ok (JValue.num 1))
        ((JSONDataCache.get (fun _ => true) (Except.ok (JValue.num 1)) none).file)).file
        = some (Except.ok (JValue.num 1))) :=
  ⟨rfl, cache_idempotence (fun _ => true) (JValue.num 1) none (by decide) rfl rfl⟩

/-- C10: a cache file that parses to a falsy payload (JSON `null`, `{}`,
`[]`, `0`, `""`, `false`) is refetched without the validator ever being
invoked — `if data and self.validator(data)` short-circuits on falsy
`data`. -/
theorem cache_falsy_payload_refetched (validator : JValue → Bool)
    (queryer : Except String JValue) (data : JValue)
    (hfalsy : truthy data = false) :
    (JSONDataCache.get validator queryer (some (Except.ok data))).validatorCalls
        = 0 ∧
    (JSONDataCache.get validator queryer (some (Except.ok data))).fetches = 1 := by
  cases queryer <;>
    simp [JSONDataCache.get, JSONDataCache.fetchAndStore, hfalsy]

/-- Witness for C10 at the payload `{}` (falsy) with a constantly-true
validator — the validator would have accepted, yet it is never called and a
fetch happens. -/
theorem cache_falsy_payload_refetched_witness :
    truthy (JValue.obj []) = false ∧
    (JSONDataCache.get (fun _ => true) (Except.ok (JValue.num 1))
        (some (Except.ok (JValue.obj [])))).validatorCalls = 0 ∧
    (JSONDataCache.get (fun _ => true) (Except.ok (JValue.num 1))
        (some (Except.ok (JValue.obj [])))).fetches = 1 :=
  ⟨rfl,
    (cache_falsy_payload_refetched (fun _ => true) (Except.ok (JValue.num 1))
      (JValue.obj []) rfl).1,
    (cache_falsy_payload_refetched (fun _ => true) (Except.ok (JValue.num 1))
      (JValue.obj []) rfl).2⟩
